import Mathlib

/-!
Shallow embedding of crates/oxc_semantic/src/jsdoc/parser/jsdoc_parts.rs.

Strings are modelled as lists of Unicode scalar values (Rust char); byte
offsets are recovered through the UTF-8 length of each character, so span
arithmetic matches Rust's byte-based string slicing. Spans are pairs of
u32 offsets; u32 arithmetic is modelled with explicit wrapping, matching a
release build. Accessors that can panic (byte-slicing at fixed offsets)
return Option, with none modelling the panic.
-/

set_option maxRecDepth 8192

/-- Convert a string literal into the list-of-characters model. -/
def s2l (s : String) : List Char := s.data

/-- Unicode scalar values with the White_Space property, the set accepted by
Rust's char::is_whitespace (used by str::trim and friends). -/
def isRustWhitespace (c : Char) : Bool :=
  decide ((0x09 ≤ c.toNat ∧ c.toNat ≤ 0x0D) ∨ c.toNat = 0x20 ∨ c.toNat = 0x85 ∨
    c.toNat = 0xA0 ∨ c.toNat = 0x1680 ∨ (0x2000 ≤ c.toNat ∧ c.toNat ≤ 0x200A) ∨
    c.toNat = 0x2028 ∨ c.toNat = 0x2029 ∨ c.toNat = 0x202F ∨ c.toNat = 0x205F ∨
    c.toNat = 0x3000)

/-- Number of bytes of the UTF-8 encoding of a character. -/
def utf8Len (c : Char) : Nat :=
  if c.toNat < 0x80 then 1 else if c.toNat < 0x800 then 2
  else if c.toNat < 0x10000 then 3 else 4

/-- Byte length of a string (str::len in Rust). -/
def strLen (l : List Char) : Nat := (l.map utf8Len).sum

/-- Longest prefix of characters satisfying p. -/
def takeWhileCh (p : Char → Bool) : List Char → List Char
  | [] => []
  | c :: cs => if p c then c :: takeWhileCh p cs else []

/-- Remainder after removing the longest prefix of characters satisfying p. -/
def dropWhileCh (p : Char → Bool) : List Char → List Char
  | [] => []
  | c :: cs => if p c then dropWhileCh p cs else c :: cs

/-- Model of str::trim_start. -/
def trimStart (l : List Char) : List Char := dropWhileCh isRustWhitespace l

/-- Model of str::trim_end. -/
def trimEnd (l : List Char) : List Char :=
  (dropWhileCh isRustWhitespace l.reverse).reverse

/-- Model of str::trim. -/
def trim (l : List Char) : List Char := trimEnd (trimStart l)

/-- Split on every newline character, keeping empty pieces (str::split). -/
def splitOnNl : List Char → List (List Char)
  | [] => [[]]
  | c :: cs =>
    if c = '\n' then [] :: splitOnNl cs
    else
      match splitOnNl cs with
      | [] => [[c]]
      | l :: ls => (c :: l) :: ls

/-- Remove one trailing carriage return, as str::lines does on each line. -/
def stripCr (l : List Char) : List Char :=
  if l.getLast? = some '\r' then l.dropLast else l

/-- Model of str::lines: split on newline, drop the final empty piece produced
by a trailing newline (split_terminator), and strip one trailing carriage
return from each line. -/
def rustLines (s : List Char) : List (List Char) :=
  let parts := splitOnNl s
  (if parts.getLast? = some [] then parts.dropLast else parts).map stripCr

/-- Byte offset of the first newline character, if any (str::find with a
newline pattern). -/
def findNl : List Char → Option Nat
  | [] => none
  | c :: cs => if c = '\n' then some 0 else (findNl cs).map (fun k => utf8Len c + k)

/-- Model of str::strip_prefix with an asterisk pattern. -/
def stripStar : List Char → Option (List Char)
  | [] => none
  | c :: cs => if c = '*' then some cs else none

/-- Model of str::split_once: split at the first occurrence of c. -/
def splitOnce (c : Char) : List Char → Option (List Char × List Char)
  | [] => none
  | x :: xs =>
    if x = c then some ([], xs)
    else (splitOnce c xs).map (fun p => (x :: p.1, p.2))

/-- Model of str::trim_start_matches with a single-character pattern. -/
def trimStartMatches (c : Char) (l : List Char) : List Char :=
  dropWhileCh (fun x => decide (x = c)) l

/-- Model of str::trim_end_matches with a single-character pattern. -/
def trimEndMatches (c : Char) (l : List Char) : List Char :=
  (dropWhileCh (fun x => decide (x = c)) l.reverse).reverse

/-- The u32 modulus. -/
def u32Mod : Nat := 4294967296

/-- Model of u32::try_from(n).unwrap_or_default(): zero when out of range. -/
def tryFromOrZero (n : Nat) : Nat := if n < u32Mod then n else 0

/-- Wrapping u32 addition result (release-build overflow semantics). -/
def wrapU32 (n : Nat) : Nat := n % u32Mod

/-- Wrapping u32 subtraction (release-build overflow semantics), for
arguments already below the modulus. -/
def wsubU32 (a b : Nat) : Nat := if b ≤ a then a - b else a + u32Mod - b

/-- Model of oxc_span::Span, a half-open pair of u32 byte offsets. -/
structure Span where
  start : Nat
  endPos : Nat
deriving DecidableEq

/-- Model of Span::new. -/
def Span.new (a b : Nat) : Span := ⟨a, b⟩

/-- Model of Span::empty: a zero-length span at the given offset. -/
def Span.empty (p : Nat) : Span := ⟨p, p⟩

/-- Free-text comment part of a JSDoc tag: a borrowed substring plus its
span (struct JSDocCommentPart). -/
structure JSDocCommentPart where
  raw : List Char
  span : Span

/-- Model of JSDocCommentPart::new. -/
def JSDocCommentPart.new (part_content : List Char) (span : Span) : JSDocCommentPart :=
  ⟨part_content, span⟩

/-- Model of JSDocCommentPart::span_trimmed_first_line: narrow the span to the
first visible line of the raw content. -/
def JSDocCommentPart.span_trimmed_first_line (self : JSDocCommentPart) : Span :=
  if trim self.raw = [] then Span.empty self.span.start
  else
    let baseLen := strLen self.raw
    if (rustLines self.raw).length = 1 then
      let trimmedStartOffset := baseLen - strLen (trimStart self.raw)
      let trimmedEndOffset := baseLen - strLen (trimEnd self.raw)
      Span.new (wrapU32 (self.span.start + tryFromOrZero trimmedStartOffset))
        (wsubU32 self.span.endPos (tryFromOrZero trimmedEndOffset))
    else
      let startTrimmed := trimStart self.raw
      let trimmedStartOffset := baseLen - strLen startTrimmed
      let trimmedEndOffset := trimmedStartOffset + (findNl startTrimmed).getD 0
      Span.new (wrapU32 (self.span.start + tryFromOrZero trimmedStartOffset))
        (wrapU32 (self.span.start + tryFromOrZero trimmedEndOffset))

/-- Model of JSDocCommentPart::parsed: single-line content is only trimmed;
multi-line content is normalized line by line. -/
def JSDocCommentPart.parsed (self : JSDocCommentPart) : List Char :=
  if (rustLines self.raw).length = 1 then trim self.raw
  else
    List.intercalate ['\n']
      (((rustLines self.raw).map
        (fun line => trim ((stripStar (trim line)).getD line))).filter
        (fun line => !line.isEmpty))

/-- Tag kind part (struct JSDocTagKindPart): the at-sign-led keyword. -/
structure JSDocTagKindPart where
  raw : List Char
  span : Span

/-- Model of JSDocTagKindPart::new (debug assertions are compiled out in a
release build, so construction is unconditional). -/
def JSDocTagKindPart.new (part_content : List Char) (span : Span) : JSDocTagKindPart :=
  ⟨part_content, span⟩

/-- Model of JSDocTagKindPart::parsed, the byte slice raw[1..]. The slice
panics when the string is empty or byte offset 1 is not a character
boundary; none models the panic. -/
def JSDocTagKindPart.parsed (self : JSDocTagKindPart) : Option (List Char) :=
  match self.raw with
  | [] => none
  | c :: cs => if utf8Len c = 1 then some cs else none

/-- Tag type part (struct JSDocTagTypePart): the brace-wrapped type text. -/
structure JSDocTagTypePart where
  raw : List Char
  span : Span

/-- Model of JSDocTagTypePart::new (debug assertions compiled out). -/
def JSDocTagTypePart.new (part_content : List Char) (span : Span) : JSDocTagTypePart :=
  ⟨part_content, span⟩

/-- Last character of a list, with a fallback for the empty list. -/
def lastD (a : Char) : List Char → Char
  | [] => a
  | x :: xs => lastD x xs

/-- Model of JSDocTagTypePart::parsed, the byte slice raw[1..len-1] followed
by a trim. The slice panics unless the byte length is at least 2 and both
offsets 1 and len-1 fall on character boundaries (the first and last
characters are single-byte); none models the panic. -/
def JSDocTagTypePart.parsed (self : JSDocTagTypePart) : Option (List Char) :=
  match self.raw with
  | [] => none
  | c :: cs =>
    if utf8Len c = 1 ∧ 2 ≤ strLen (c :: cs) ∧ utf8Len (lastD c cs) = 1
    then some (trim cs.dropLast)
    else none

/-- Tag type-name part (struct JSDocTagTypeNamePart) with its two modifier
flags computed at construction. -/
structure JSDocTagTypeNamePart where
  raw : List Char
  span : Span
  optional : Bool
  default : Bool

/-- Model of str::starts_with with a single-character pattern. -/
def startsWithChar (c : Char) (l : List Char) : Bool :=
  match l with
  | [] => false
  | x :: _ => decide (x = c)

/-- Model of str::ends_with with a single-character pattern. -/
def endsWithChar (c : Char) (l : List Char) : Bool := startsWithChar c l.reverse

/-- Model of str::contains with a single-character pattern. -/
def containsChar (c : Char) (l : List Char) : Bool := l.any (fun x => decide (x = c))

/-- Model of JSDocTagTypeNamePart::new: the optional and default flags are
computed once from the raw content. -/
def JSDocTagTypeNamePart.new (part_content : List Char) (span : Span) : JSDocTagTypeNamePart :=
  let optional := startsWithChar '[' part_content && endsWithChar ']' part_content
  let dflt := optional && containsChar '=' part_content
  ⟨part_content, span, optional, dflt⟩

/-- Model of JSDocTagTypeNamePart::parsed: extract the bare name from an
optional or defaulted form. -/
def JSDocTagTypeNamePart.parsed (self : JSDocTagTypeNamePart) : List Char :=
  if self.optional then
    let inner := trim (trimEndMatches ']' (trimStartMatches '[' self.raw))
    match splitOnce '=' inner with
    | some p => trim p.1
    | none => inner
  else self.raw

/-! Helper lemmas about the string model. -/

theorem utf8Len_pos (c : Char) : 0 < utf8Len c := by
  unfold utf8Len; split_ifs <;> omega

theorem strLen_nil : strLen [] = 0 := rfl

theorem strLen_cons (c : Char) (l : List Char) :
    strLen (c :: l) = utf8Len c + strLen l := by
  simp [strLen]

theorem strLen_append (l₁ l₂ : List Char) :
    strLen (l₁ ++ l₂) = strLen l₁ + strLen l₂ := by
  simp [strLen]

theorem strLen_reverse (l : List Char) : strLen l.reverse = strLen l := by
  simp [strLen, List.map_reverse, List.sum_reverse]

theorem takeWhileCh_append_dropWhileCh (p : Char → Bool) :
    ∀ l, takeWhileCh p l ++ dropWhileCh p l = l := by
  intro l
  induction l with
  | nil => rfl
  | cons c cs ih => by_cases h : p c <;> simp [takeWhileCh, dropWhileCh, h, ih]

theorem strLen_take_drop (p : Char → Bool) (l : List Char) :
    strLen (takeWhileCh p l) + strLen (dropWhileCh p l) = strLen l := by
  rw [← strLen_append, takeWhileCh_append_dropWhileCh]

theorem strLen_dropWhileCh_le (p : Char → Bool) (l : List Char) :
    strLen (dropWhileCh p l) ≤ strLen l := by
  have h := strLen_take_drop p l
  omega

theorem dropWhileCh_cons_of_neg (p : Char → Bool) (c : Char) (cs : List Char)
    (h : p c = false) : dropWhileCh p (c :: cs) = c :: cs := by
  simp [dropWhileCh, h]

theorem dropWhileCh_head_false (p : Char → Bool) :
    ∀ l c cs, dropWhileCh p l = c :: cs → p c = false := by
  intro l
  induction l with
  | nil => intro c cs h; simp [dropWhileCh] at h
  | cons x xs ih =>
    intro c cs h
    by_cases hx : p x
    · simp only [dropWhileCh, if_pos hx] at h
      exact ih c cs h
    · simp only [dropWhileCh, if_neg hx] at h
      obtain ⟨h1, h2⟩ := List.cons.inj h
      subst h1
      exact Bool.eq_false_iff.mpr hx

theorem dropWhileCh_idem (p : Char → Bool) (l : List Char) :
    dropWhileCh p (dropWhileCh p l) = dropWhileCh p l := by
  cases h : dropWhileCh p l with
  | nil => rfl
  | cons c cs => exact dropWhileCh_cons_of_neg p c cs (dropWhileCh_head_false p l c cs h)

theorem dropWhileCh_append_of_ex (p : Char → Bool) (l₁ l₂ : List Char)
    (h : ∃ x ∈ l₁, p x = false) :
    dropWhileCh p (l₁ ++ l₂) = dropWhileCh p l₁ ++ l₂ := by
  induction l₁ with
  | nil => obtain ⟨x, hx, _⟩ := h; simp at hx
  | cons c cs ih =>
    by_cases hc : p c
    · have h' : ∃ x ∈ cs, p x = false := by
        obtain ⟨x, hx, hpx⟩ := h
        rcases List.mem_cons.mp hx with rfl | hmem
        · rw [hpx] at hc; simp at hc
        · exact ⟨x, hmem, hpx⟩
      simp only [List.cons_append, dropWhileCh, if_pos hc]
      exact ih h'
    · simp only [List.cons_append, dropWhileCh, if_neg hc]
      rfl

theorem dropWhileCh_eq_nil_of_all (p : Char → Bool) (l : List Char)
    (h : ∀ x ∈ l, p x = true) : dropWhileCh p l = [] := by
  induction l with
  | nil => rfl
  | cons c cs ih =>
    have hc : p c = true := h c (List.mem_cons_self c cs)
    simp only [dropWhileCh, if_pos hc]
    exact ih fun x hx => h x (List.mem_cons_of_mem c hx)

theorem exists_false_of_dropWhileCh_ne_nil (p : Char → Bool) (l : List Char)
    (h : dropWhileCh p l ≠ []) : ∃ x ∈ l, p x = false := by
  by_contra hc
  push_neg at hc
  refine h (dropWhileCh_eq_nil_of_all p l fun x hx => ?_)
  cases hpx : p x with
  | true => rfl
  | false => exact absurd hpx (hc x hx)

theorem strLen_trimStart_le (l : List Char) : strLen (trimStart l) ≤ strLen l :=
  strLen_dropWhileCh_le _ l

theorem strLen_trimEnd (l : List Char) :
    strLen (trimEnd l) = strLen (dropWhileCh isRustWhitespace l.reverse) := by
  rw [trimEnd, strLen_reverse]

theorem strLen_trimEnd_le (l : List Char) : strLen (trimEnd l) ≤ strLen l := by
  rw [strLen_trimEnd]
  calc strLen (dropWhileCh isRustWhitespace l.reverse) ≤ strLen l.reverse :=
        strLen_dropWhileCh_le _ _
    _ = strLen l := strLen_reverse l

theorem trimEnd_append_takeWhileCh (y : List Char) :
    trimEnd y ++ (takeWhileCh isRustWhitespace y.reverse).reverse = y := by
  have h := congrArg List.reverse (takeWhileCh_append_dropWhileCh isRustWhitespace y.reverse)
  rwa [List.reverse_append, List.reverse_reverse] at h

theorem strLen_trim_key (l : List Char) (h : trim l ≠ []) :
    strLen l + strLen (trim l) = strLen (trimStart l) + strLen (trimEnd l) := by
  have hinner : dropWhileCh isRustWhitespace (trimStart l).reverse ≠ [] := by
    intro hnil
    apply h
    rw [trim, trimEnd, hnil, List.reverse_nil]
  have hex : ∃ x ∈ (trimStart l).reverse, isRustWhitespace x = false :=
    exists_false_of_dropWhileCh_ne_nil _ _ hinner
  have hdecomp : takeWhileCh isRustWhitespace l ++ trimStart l = l :=
    takeWhileCh_append_dropWhileCh isRustWhitespace l
  have hlrev : l.reverse =
      (trimStart l).reverse ++ (takeWhileCh isRustWhitespace l).reverse := by
    conv_lhs => rw [← hdecomp]
    rw [List.reverse_append]
  have hdw : dropWhileCh isRustWhitespace l.reverse =
      dropWhileCh isRustWhitespace (trimStart l).reverse ++
        (takeWhileCh isRustWhitespace l).reverse := by
    rw [hlrev]
    exact dropWhileCh_append_of_ex _ _ _ hex
  have e1 : strLen (trimEnd l) =
      strLen (dropWhileCh isRustWhitespace (trimStart l).reverse) +
        strLen (takeWhileCh isRustWhitespace l) := by
    rw [strLen_trimEnd, hdw, strLen_append, strLen_reverse]
  have e2 : strLen (trim l) =
      strLen (dropWhileCh isRustWhitespace (trimStart l).reverse) := by
    rw [trim, strLen_trimEnd]
  have e3 : strLen (takeWhileCh isRustWhitespace l) + strLen (trimStart l) = strLen l := by
    rw [← strLen_append, hdecomp]
  omega

theorem trimEnd_idem (y : List Char) : trimEnd (trimEnd y) = trimEnd y := by
  unfold trimEnd
  rw [List.reverse_reverse, dropWhileCh_idem]

theorem trimStart_trim (l : List Char) : trimStart (trim l) = trim l := by
  cases h : trim l with
  | nil => rfl
  | cons c cs =>
    have hb := trimEnd_append_takeWhileCh (trimStart l)
    rw [show trimEnd (trimStart l) = trim l from rfl, h] at hb
    have hhead : trimStart l =
        c :: (cs ++ (takeWhileCh isRustWhitespace (trimStart l).reverse).reverse) :=
      hb.symm.trans (List.cons_append c cs _)
    have hc : isRustWhitespace c = false :=
      dropWhileCh_head_false isRustWhitespace l c _ hhead
    exact dropWhileCh_cons_of_neg _ c cs hc

theorem trim_idem (l : List Char) : trim (trim l) = trim l := by
  have h1 : trim (trim l) = trimEnd (trim l) := by
    rw [show trim (trim l) = trimEnd (trimStart (trim l)) from rfl, trimStart_trim]
  rw [h1, show trim l = trimEnd (trimStart l) from rfl, trimEnd_idem]

theorem findNl_lt (l : List Char) :
    ∀ k, findNl l = some k → k < strLen l := by
  induction l with
  | nil => intro k h; simp [findNl] at h
  | cons c cs ih =>
    intro k h
    by_cases hc : c = '\n'
    · simp only [findNl, if_pos hc] at h
      have := utf8Len_pos c
      have hk : k = 0 := by injection h with h'; omega
      rw [hk, strLen_cons]
      have := utf8Len_pos c
      omega
    · simp only [findNl, if_neg hc] at h
      cases hcs : findNl cs with
      | none => rw [hcs] at h; simp at h
      | some k' =>
        rw [hcs] at h
        simp only [Option.map_some'] at h
        have hk : k = utf8Len c + k' := by injection h with h'; omega
        have := ih k' hcs
        rw [hk, strLen_cons]
        omega

theorem splitOnNl_no_nl (l : List Char) (h : '\n' ∉ l) : splitOnNl l = [l] := by
  induction l with
  | nil => rfl
  | cons c cs ih =>
    have hc : ¬(c = '\n') := by
      intro hh
      apply h
      rw [hh]
      exact List.mem_cons_self _ _
    have h' : '\n' ∉ cs := fun hm => h (List.mem_cons_of_mem c hm)
    simp only [splitOnNl, if_neg hc, ih h']

theorem rustLines_nil : rustLines [] = [] := rfl

theorem rustLines_single (raw : List Char) (h1 : '\n' ∉ raw) (h2 : raw ≠ []) :
    rustLines raw = [stripCr raw] := by
  simp only [rustLines, splitOnNl_no_nl raw h1]
  have hne : ¬(([raw] : List (List Char)).getLast? = some []) := by
    simp [h2]
  rw [if_neg hne]
  rfl

theorem raw_ne_nil_of_trim (l : List Char) (h : trim l ≠ []) : l ≠ [] := by
  intro hh
  exact h (by rw [hh]; rfl)

/-! Definitions taken from the specification's words, for refinement
comparison against the code-derived definitions above. -/

/-- Per-line rule as the specification words it for multi-line comment
content: trim whitespace, strip at most one leading asterisk if present,
then trim whitespace again. -/
def claimLineRule (line : List Char) : List Char :=
  trim ((stripStar (trim line)).getD (trim line))

/-- Multi-line normalization as the specification words it: split into
lines, apply the per-line rule, drop lines that become empty, join the
survivors with a single newline in original order. -/
def claimMultilineParsed (raw : List Char) : List Char :=
  List.intercalate ['\n']
    (((rustLines raw).map claimLineRule).filter (fun line => !line.isEmpty))

/-- Name extraction as claim C5 words it: when the raw content is
bracket-delimited, strip exactly one leading opening bracket and exactly
one trailing closing bracket, trim, and split at the first equals sign. -/
def typeNameParsedClaimC5 (raw : List Char) : List Char :=
  if startsWithChar '[' raw && endsWithChar ']' raw then
    let inner := trim (raw.drop 1).dropLast
    match splitOnce '=' inner with
    | some p => trim p.1
    | none => inner
  else raw

/-! Helper lemmas about the specific accessor shapes. -/

theorem lastD_append_single (a d : Char) :
    ∀ l, lastD a (l ++ [d]) = d := by
  intro l
  induction l generalizing a with
  | nil => rfl
  | cons x xs ih => exact ih x

theorem dropLast_append_single (l : List Char) (d : Char) :
    (l ++ [d]).dropLast = l := by
  rw [List.dropLast_concat]

theorem claimLineRule_eq (line : List Char) :
    trim ((stripStar (trim line)).getD line) = claimLineRule line := by
  unfold claimLineRule
  cases h : stripStar (trim line) with
  | some r => rfl
  | none => simp only [Option.getD_none]; exact (trim_idem line).symm

/-! Claim theorems. -/

/-- Claim C1, counterexample: the raw content consisting of one line of
text followed by a single trailing line break contains a line break, yet
parsed() does not apply the claimed per-line asterisk-stripping
normalization to it (the code treats it as single-line and only trims). -/
theorem C1_counterexample : '\n' ∈ s2l "  * foo\n" ∧
    JSDocCommentPart.parsed ⟨s2l "  * foo\n", ⟨0, 8⟩⟩ ≠
      claimMultilineParsed (s2l "  * foo\n") := by decide

/-- Claim C1 as amended: for every raw comment substring that splits into
at least two lines under Rust's line iterator (a sole trailing line break
does not create a second line), parsed() splits it into lines and, for
each line, trims whitespace, strips at most one leading asterisk if
present, trims again, drops lines that become empty, and joins the
surviving lines with a single newline between them in original order. -/
theorem C1_multiline_normalization (p : JSDocCommentPart)
    (h : 2 ≤ (rustLines p.raw).length) : p.parsed = claimMultilineParsed p.raw := by
  have hne : ¬((rustLines p.raw).length = 1) := by omega
  simp only [JSDocCommentPart.parsed, if_neg hne, claimMultilineParsed]
  rw [show (fun line => trim ((stripStar (trim line)).getD line)) = claimLineRule from
    funext claimLineRule_eq]

/-- Claim C1 witness: the specification's own example evaluates as claimed
on the amended statement. -/
theorem C1_multiline_witness :
    2 ≤ (rustLines (s2l "\n * foo\n * bar\n")).length ∧
    JSDocCommentPart.parsed ⟨s2l "\n * foo\n * bar\n", ⟨0, 15⟩⟩ =
      claimMultilineParsed (s2l "\n * foo\n * bar\n") ∧
    claimMultilineParsed (s2l "\n * foo\n * bar\n") = s2l "foo\nbar" :=
  ⟨by decide,
   C1_multiline_normalization ⟨s2l "\n * foo\n * bar\n", ⟨0, 15⟩⟩ (by decide),
   by decide⟩

/-- Claim C2: for every raw comment substring with no line break, parsed()
returns the substring trimmed of leading and trailing whitespace, with no
asterisk stripping. -/
theorem C2_single_line_trim (p : JSDocCommentPart) (h : '\n' ∉ p.raw) :
    p.parsed = trim p.raw := by
  obtain ⟨raw, sp⟩ := p
  by_cases hr : raw = []
  · subst hr; rfl
  · simp only [JSDocCommentPart.parsed]
    rw [rustLines_single raw h hr]
    simp

/-- Claim C2 witness: a row of asterisks with no line break passes through
with no stripping, as the claim states. -/
theorem C2_witness : JSDocCommentPart.parsed ⟨s2l "***", ⟨0, 3⟩⟩ = s2l "***" := by
  rw [C2_single_line_trim ⟨s2l "***", ⟨0, 3⟩⟩ (by decide)]
  decide

/-- Claim C7: for every raw substring consisting of an opening brace, any
middle content, and a closing brace, JSDocTagTypePart::parsed() removes
exactly one leading and one trailing brace and trims the result, keeping
the middle content (including any nested braces) verbatim; the
specification's concrete examples evaluate as stated. -/
theorem C7_brace_stripping :
    (∀ (mid : List Char) (sp : Span),
        JSDocTagTypePart.parsed ⟨'\x7b' :: (mid ++ ['\x7d']), sp⟩ = some (trim mid)) ∧
    JSDocTagTypePart.parsed ⟨s2l "\x7b\x7d", ⟨0, 2⟩⟩ = some (s2l "") ∧
    JSDocTagTypePart.parsed ⟨s2l "\x7b\x7bx:1\x7d\x7d", ⟨0, 7⟩⟩ = some (s2l "\x7bx:1\x7d") ∧
    JSDocTagTypePart.parsed ⟨s2l "\x7b bool  \x7d", ⟨0, 10⟩⟩ = some (s2l "bool") := by
  refine ⟨fun mid sp => ?_, by decide, by decide, by decide⟩
  simp only [JSDocTagTypePart.parsed]
  have h2 : 2 ≤ strLen ('\x7b' :: (mid ++ ['\x7d'])) := by
    rw [strLen_cons, strLen_append]
    have ha : utf8Len '\x7b' = 1 := by decide
    have hb : strLen ['\x7d'] = 1 := by decide
    omega
  rw [if_pos ⟨by decide, h2, by rw [lastD_append_single]; decide⟩,
    dropLast_append_single]

/-- Claim C8: for every raw substring starting with the at sign, parsed()
returns the substring with the leading at sign removed; the concrete
examples, including a non-ASCII tag name, evaluate as stated. -/
theorem C8_kind_at_stripping :
    (∀ (rest : List Char) (sp : Span),
        JSDocTagKindPart.parsed ⟨'@' :: rest, sp⟩ = some rest) ∧
    JSDocTagKindPart.parsed ⟨s2l "@param", ⟨0, 6⟩⟩ = some (s2l "param") ∧
    JSDocTagKindPart.parsed ⟨s2l "@", ⟨0, 1⟩⟩ = some (s2l "") ∧
    JSDocTagKindPart.parsed ⟨s2l "@かいんど", ⟨0, 13⟩⟩ = some (s2l "かいんど") :=
  ⟨fun rest sp => rfl, by decide, by decide, by decide⟩

/-- Claim C9: JSDocTagTypeNamePart::new computes the optional flag as
bracket delimitation and the default flag as optional conjoined with the
presence of an equals sign, both fixed at construction, and every
constructed value satisfies the invariant that default implies optional. -/
theorem C9_flags (raw : List Char) (sp : Span) :
    (JSDocTagTypeNamePart.new raw sp).optional =
        (startsWithChar '[' raw && endsWithChar ']' raw) ∧
    (JSDocTagTypeNamePart.new raw sp).default =
        ((JSDocTagTypeNamePart.new raw sp).optional && containsChar '=' raw) ∧
    ((JSDocTagTypeNamePart.new raw sp).default = true →
        (JSDocTagTypeNamePart.new raw sp).optional = true) :=
  ⟨rfl, rfl, fun h =>
    (Bool.and_eq_true (startsWithChar '[' raw && endsWithChar ']' raw)
      (containsChar '=' raw) ▸ h).1⟩

/-- Claim C9 witness: a defaulted name is optional. -/
theorem C9_witness : (JSDocTagTypeNamePart.new (s2l "[def=1]") ⟨0, 7⟩).optional = true :=
  (C9_flags (s2l "[def=1]") ⟨0, 7⟩).2.2 (by decide)
/-- Remove every leading occurrence of a character, written by direct
recursion (used to state the amended claim C5 independently of the
code-derived trim_start_matches model). -/
def dropLeadingEq (c : Char) : List Char → List Char
  | [] => []
  | x :: xs => if x = c then dropLeadingEq c xs else x :: xs

/-- Name extraction under the amended claim C5: strip all leading opening
brackets and all trailing closing brackets, trim, then split at the first
equals sign and return the trimmed left-hand side. -/
def typeNameAllStrip (raw : List Char) : List Char :=
  let inner := trim ((dropLeadingEq ']' (dropLeadingEq '[' raw).reverse).reverse)
  match splitOnce '=' inner with
  | some p => trim p.1
  | none => inner

theorem dropLeadingEq_eq_dropWhileCh (c : Char) :
    ∀ l, dropLeadingEq c l = dropWhileCh (fun x => decide (x = c)) l := by
  intro l
  induction l with
  | nil => rfl
  | cons x xs ih => by_cases h : x = c <;> simp [dropLeadingEq, dropWhileCh, h, ih]

/-- Claim C5, counterexample: on a doubly bracketed name the accessor strips
both leading brackets and both trailing brackets, not exactly one of each
as the claim states. -/
theorem C5_counterexample :
    (JSDocTagTypeNamePart.new (s2l "[[a]]") ⟨0, 5⟩).parsed = s2l "a" ∧
    typeNameParsedClaimC5 (s2l "[[a]]") = s2l "[a]" ∧
    (JSDocTagTypeNamePart.new (s2l "[[a]]") ⟨0, 5⟩).parsed ≠
      typeNameParsedClaimC5 (s2l "[[a]]") := by decide

/-- Claim C5 as amended: for a part that is not optional, parsed() returns
the raw substring unchanged; for an optional part, parsed() strips all
leading opening brackets and all trailing closing brackets (not exactly one
of each), trims whitespace, and if an equals sign is present splits on the
first one and returns the whitespace-trimmed left-hand side; the
specification's own example still yields the bare name. -/
theorem C5_all_bracket_stripping :
    (∀ (raw : List Char) (sp : Span),
        (JSDocTagTypeNamePart.new raw sp).optional = false →
        (JSDocTagTypeNamePart.new raw sp).parsed = raw) ∧
    (∀ (raw : List Char) (sp : Span),
        (JSDocTagTypeNamePart.new raw sp).optional = true →
        (JSDocTagTypeNamePart.new raw sp).parsed = typeNameAllStrip raw) ∧
    (JSDocTagTypeNamePart.new (s2l "[foo = [ 1 ]]") ⟨0, 13⟩).parsed = s2l "foo" := by
  refine ⟨fun raw sp h => ?_, fun raw sp h => ?_, by decide⟩
  · simp only [JSDocTagTypeNamePart.parsed, h]
    rfl
  · simp only [JSDocTagTypeNamePart.parsed, h, if_true]
    simp only [typeNameAllStrip, trimStartMatches, trimEndMatches,
      dropLeadingEq_eq_dropWhileCh]
    rfl

/-- Claim C5 witness: both amended branches evaluate on concrete inputs. -/
theorem C5_witness :
    (JSDocTagTypeNamePart.new (s2l "x") ⟨0, 1⟩).parsed = s2l "x" ∧
    (JSDocTagTypeNamePart.new (s2l "[opt]") ⟨0, 5⟩).parsed =
      typeNameAllStrip (s2l "[opt]") :=
  ⟨C5_all_bracket_stripping.1 (s2l "x") ⟨0, 1⟩ (by decide),
   C5_all_bracket_stripping.2.1 (s2l "[opt]") ⟨0, 5⟩ (by decide)⟩

/-- Claim C6, counterexample: on the empty substring, which violates the
constructors' debug-only preconditions, both parsed() accessors panic in a
release build as well (the byte slices raw[1..] and raw[1..len-1] are out
of bounds), contradicting the claim that no input can crash them. -/
theorem C6_counterexample :
    JSDocTagKindPart.parsed ⟨s2l "", ⟨0, 0⟩⟩ = none ∧
    JSDocTagTypePart.parsed ⟨s2l "", ⟨0, 0⟩⟩ = none := by decide

/-- Claim C6 as amended: the parsed() accessors of JSDocTagKindPart and
JSDocTagTypePart are panic-free exactly when their fixed byte offsets fall
on in-bounds character boundaries: for the kind part any nonempty substring
whose first character is single-byte (no matter whether it starts with an
at sign), and for the type part any substring of byte length at least two
whose first and last characters are single-byte; outside these conditions
the release-build slice panics (memory-safely), so the original claim's
"never crash for every input" is too strong. -/
theorem C6_no_panic_on_boundary :
    (∀ (c : Char) (cs : List Char) (sp : Span), utf8Len c = 1 →
        (JSDocTagKindPart.parsed ⟨c :: cs, sp⟩).isSome = true) ∧
    (∀ (c : Char) (cs : List Char) (sp : Span), utf8Len c = 1 →
        2 ≤ strLen (c :: cs) → utf8Len (lastD c cs) = 1 →
        (JSDocTagTypePart.parsed ⟨c :: cs, sp⟩).isSome = true) := by
  constructor
  · intro c cs sp h
    simp [JSDocTagKindPart.parsed, h]
  · intro c cs sp h1 h2 h3
    simp [JSDocTagTypePart.parsed, h1, h2, h3]

/-- Claim C6 witness: a kind substring violating the at-sign precondition
and a type substring violating the brace precondition both produce
well-defined output without panicking. -/
theorem C6_witness :
    (JSDocTagKindPart.parsed ⟨s2l "#x", ⟨0, 2⟩⟩).isSome = true ∧
    (JSDocTagTypePart.parsed ⟨s2l "ab", ⟨0, 2⟩⟩).isSome = true :=
  ⟨C6_no_panic_on_boundary.1 '#' (s2l "x") ⟨0, 2⟩ (by decide),
   C6_no_panic_on_boundary.2 'a' (s2l "b") ⟨0, 2⟩ (by decide) (by decide) (by decide)⟩

/-! Branch lemmas for span_trimmed_first_line: under the invariant that the
span length equals the raw byte length (and the span fits in u32, as the
Rust field types force), the wrapping u32 arithmetic never actually wraps. -/

theorem findNl_getD_le (l : List Char) : (findNl l).getD 0 ≤ strLen l := by
  cases h : findNl l with
  | none => simp
  | some k => simpa using Nat.le_of_lt (findNl_lt l k h)

theorem stfl_whitespace (p : JSDocCommentPart) (h : trim p.raw = []) :
    p.span_trimmed_first_line = Span.empty p.span.start := by
  simp only [JSDocCommentPart.span_trimmed_first_line, if_pos h]

theorem stfl_single (p : JSDocCommentPart)
    (hlen : p.span.endPos = p.span.start + strLen p.raw)
    (hu32 : p.span.endPos < u32Mod)
    (h0 : trim p.raw ≠ []) (h1 : (rustLines p.raw).length = 1) :
    p.span_trimmed_first_line =
      Span.new (p.span.start + (strLen p.raw - strLen (trimStart p.raw)))
        (p.span.endPos - (strLen p.raw - strLen (trimEnd p.raw))) := by
  simp only [JSDocCommentPart.span_trimmed_first_line, if_neg h0, if_pos h1]
  have hts := strLen_trimStart_le p.raw
  have hte := strLen_trimEnd_le p.raw
  have haw : strLen p.raw - strLen (trimStart p.raw) < u32Mod := by omega
  have hbw : strLen p.raw - strLen (trimEnd p.raw) < u32Mod := by omega
  have e1 : tryFromOrZero (strLen p.raw - strLen (trimStart p.raw)) =
      strLen p.raw - strLen (trimStart p.raw) := by
    unfold tryFromOrZero; rw [if_pos haw]
  have e2 : tryFromOrZero (strLen p.raw - strLen (trimEnd p.raw)) =
      strLen p.raw - strLen (trimEnd p.raw) := by
    unfold tryFromOrZero; rw [if_pos hbw]
  rw [e1, e2]
  have e3 : wrapU32 (p.span.start + (strLen p.raw - strLen (trimStart p.raw))) =
      p.span.start + (strLen p.raw - strLen (trimStart p.raw)) := by
    unfold wrapU32
    exact Nat.mod_eq_of_lt (by omega)
  have e4 : wsubU32 p.span.endPos (strLen p.raw - strLen (trimEnd p.raw)) =
      p.span.endPos - (strLen p.raw - strLen (trimEnd p.raw)) := by
    unfold wsubU32
    rw [if_pos (by omega)]
  rw [e3, e4]

theorem stfl_multi (p : JSDocCommentPart)
    (hlen : p.span.endPos = p.span.start + strLen p.raw)
    (hu32 : p.span.endPos < u32Mod)
    (h0 : trim p.raw ≠ []) (h1 : ¬((rustLines p.raw).length = 1)) :
    p.span_trimmed_first_line =
      Span.new (p.span.start + (strLen p.raw - strLen (trimStart p.raw)))
        (p.span.start + ((strLen p.raw - strLen (trimStart p.raw)) +
          (findNl (trimStart p.raw)).getD 0)) := by
  simp only [JSDocCommentPart.span_trimmed_first_line, if_neg h0, if_neg h1]
  have hts := strLen_trimStart_le p.raw
  have hk := findNl_getD_le (trimStart p.raw)
  have haw : strLen p.raw - strLen (trimStart p.raw) < u32Mod := by omega
  have hbw : strLen p.raw - strLen (trimStart p.raw) +
      (findNl (trimStart p.raw)).getD 0 < u32Mod := by omega
  have e1 : tryFromOrZero (strLen p.raw - strLen (trimStart p.raw)) =
      strLen p.raw - strLen (trimStart p.raw) := by
    unfold tryFromOrZero; rw [if_pos haw]
  have e2 : tryFromOrZero (strLen p.raw - strLen (trimStart p.raw) +
      (findNl (trimStart p.raw)).getD 0) =
      strLen p.raw - strLen (trimStart p.raw) + (findNl (trimStart p.raw)).getD 0 := by
    unfold tryFromOrZero; rw [if_pos hbw]
  rw [e1, e2]
  have e3 : wrapU32 (p.span.start + (strLen p.raw - strLen (trimStart p.raw))) =
      p.span.start + (strLen p.raw - strLen (trimStart p.raw)) := by
    unfold wrapU32
    exact Nat.mod_eq_of_lt (by omega)
  have e4 : wrapU32 (p.span.start + (strLen p.raw - strLen (trimStart p.raw) +
      (findNl (trimStart p.raw)).getD 0)) =
      p.span.start + (strLen p.raw - strLen (trimStart p.raw) +
        (findNl (trimStart p.raw)).getD 0) := by
    unfold wrapU32
    exact Nat.mod_eq_of_lt (by omega)
  rw [e3, e4]

/-- Claim C3: on multi-line raw content (at least two lines under Rust's
line iterator) that is not entirely whitespace, the returned span starts at
the original start moved forward by the stripped leading whitespace byte
count, and ends at the offset of the first line break found after that
leading whitespace is skipped, or at the start-adjusted offset when no
break follows; the span-length invariant of the data model (span length
equals raw byte length, offsets fit in u32) is assumed. -/
theorem C3_multiline_span (p : JSDocCommentPart)
    (hlen : p.span.endPos = p.span.start + strLen p.raw)
    (hu32 : p.span.endPos < u32Mod)
    (hws : trim p.raw ≠ [])
    (hml : 2 ≤ (rustLines p.raw).length) :
    p.span_trimmed_first_line =
      Span.new (p.span.start + strLen (takeWhileCh isRustWhitespace p.raw))
        (p.span.start + strLen (takeWhileCh isRustWhitespace p.raw) +
          (findNl (trimStart p.raw)).getD 0) := by
  have h1 : ¬((rustLines p.raw).length = 1) := by omega
  rw [stfl_multi p hlen hu32 hws h1]
  have hd := strLen_take_drop isRustWhitespace p.raw
  have e : strLen p.raw - strLen (trimStart p.raw) =
      strLen (takeWhileCh isRustWhitespace p.raw) := by
    unfold trimStart; omega
  rw [e, ← Nat.add_assoc]

/-- Claim C3 witness: a concrete multi-line comment part narrows to its
first visible line. -/
theorem C3_witness :
    JSDocCommentPart.span_trimmed_first_line ⟨s2l "\n * a\n * b\n", ⟨0, 11⟩⟩ =
      Span.new 2 5 := by
  rw [C3_multiline_span ⟨s2l "\n * a\n * b\n", ⟨0, 11⟩⟩ (by decide) (by decide)
    (by decide) (by decide)]
  decide

/-- Claim C4: on entirely-whitespace raw content the narrowed span is the
zero-length span at the original start (no further hypotheses needed); on
raw content with no line break (and some visible content) the narrowed span
moves the start forward by the stripped leading whitespace byte count and
the end backward by the stripped trailing whitespace byte count, under the
data model's span-length invariant; and the specification's two concrete
examples evaluate as stated. -/
theorem C4_single_line_span :
    (∀ (p : JSDocCommentPart), trim p.raw = [] →
        p.span_trimmed_first_line = Span.empty p.span.start) ∧
    (∀ (p : JSDocCommentPart), p.span.endPos = p.span.start + strLen p.raw →
        p.span.endPos < u32Mod → '\n' ∉ p.raw → trim p.raw ≠ [] →
        p.span_trimmed_first_line =
          Span.new (p.span.start + strLen (takeWhileCh isRustWhitespace p.raw))
            (p.span.endPos - strLen (takeWhileCh isRustWhitespace p.raw.reverse))) ∧
    JSDocCommentPart.span_trimmed_first_line ⟨s2l "...", ⟨0, 3⟩⟩ = Span.new 0 3 ∧
    JSDocCommentPart.span_trimmed_first_line ⟨s2l " c 3\n", ⟨0, 5⟩⟩ = Span.new 1 4 := by
  refine ⟨fun p h => stfl_whitespace p h, fun p hlen hu32 hnl hws => ?_,
    by decide, by decide⟩
  have h1 : (rustLines p.raw).length = 1 := by
    rw [rustLines_single p.raw hnl (raw_ne_nil_of_trim p.raw hws)]
    rfl
  rw [stfl_single p hlen hu32 hws h1]
  have e1 : strLen p.raw - strLen (trimStart p.raw) =
      strLen (takeWhileCh isRustWhitespace p.raw) := by
    have hd := strLen_take_drop isRustWhitespace p.raw
    unfold trimStart; omega
  have e2 : strLen p.raw - strLen (trimEnd p.raw) =
      strLen (takeWhileCh isRustWhitespace p.raw.reverse) := by
    have hd := strLen_take_drop isRustWhitespace p.raw.reverse
    have hr := strLen_trimEnd p.raw
    have hrr := strLen_reverse p.raw
    omega
  rw [e1, e2]

/-- Claim C4 witness: both universal branches evaluate on concrete parts. -/
theorem C4_witness :
    JSDocCommentPart.span_trimmed_first_line ⟨s2l "  ", ⟨7, 9⟩⟩ = Span.empty 7 ∧
    JSDocCommentPart.span_trimmed_first_line ⟨s2l "hi ", ⟨0, 3⟩⟩ = Span.new 0 2 := by
  constructor
  · exact C4_single_line_span.1 ⟨s2l "  ", ⟨7, 9⟩⟩ (by decide)
  · rw [C4_single_line_span.2.1 ⟨s2l "hi ", ⟨0, 3⟩⟩ (by decide) (by decide)
      (by decide) (by decide)]
    decide

/-- Claim C10: whenever the span length equals the raw byte length (the
data model invariant; u32 offsets), the span returned by
span_trimmed_first_line is well-formed and contained in the original span. -/
theorem C10_span_containment (p : JSDocCommentPart)
    (hlen : p.span.endPos = p.span.start + strLen p.raw)
    (hu32 : p.span.endPos < u32Mod) :
    p.span.start ≤ p.span_trimmed_first_line.start ∧
    p.span_trimmed_first_line.start ≤ p.span_trimmed_first_line.endPos ∧
    p.span_trimmed_first_line.endPos ≤ p.span.endPos := by
  by_cases h0 : trim p.raw = []
  · rw [stfl_whitespace p h0]
    simp only [Span.empty]
    omega
  · by_cases h1 : (rustLines p.raw).length = 1
    · rw [stfl_single p hlen hu32 h0 h1]
      have hkey := strLen_trim_key p.raw h0
      have hts := strLen_trimStart_le p.raw
      have hte := strLen_trimEnd_le p.raw
      simp only [Span.new]
      omega
    · rw [stfl_multi p hlen hu32 h0 h1]
      have hts := strLen_trimStart_le p.raw
      have hk := findNl_getD_le (trimStart p.raw)
      simp only [Span.new]
      omega

/-- Claim C10 witness: containment on a concrete multi-line part. -/
theorem C10_witness :
    (⟨0, 8⟩ : Span).start ≤
      (JSDocCommentPart.span_trimmed_first_line ⟨s2l "\n * foo\n", ⟨0, 8⟩⟩).start ∧
    (JSDocCommentPart.span_trimmed_first_line ⟨s2l "\n * foo\n", ⟨0, 8⟩⟩).start ≤
      (JSDocCommentPart.span_trimmed_first_line ⟨s2l "\n * foo\n", ⟨0, 8⟩⟩).endPos ∧
    (JSDocCommentPart.span_trimmed_first_line ⟨s2l "\n * foo\n", ⟨0, 8⟩⟩).endPos ≤
      (⟨0, 8⟩ : Span).endPos :=
  C10_span_containment ⟨s2l "\n * foo\n", ⟨0, 8⟩⟩ (by decide) (by decide)
